import Mathlib

/-!
# SQLPad server bootstrap (`server/app.js`)

A shallow embedding of the Express application assembled by `server/app.js`:
the configuration it reads, the cookie secrets it draws, the rewrite of the
front-end template, the middleware stack it registers (in registration order)
and the way Express walks that stack for a request.

JavaScript strings are modelled as lists of characters.
-/

namespace SqlPad

/-- JavaScript strings, as lists of characters. -/
abbrev Str := List Char

/-- The double-quote character. -/
def dq : Char := Char.ofNat 34

/-- The apostrophe character. -/
def apos : Char := Char.ofNat 39

/-- The grave-accent character. -/
def grave : Char := Char.ofNat 96

/-! ## Configuration (lines 11-17) -/

/-- The values destructured from `getPreDbConfig()`. A string setting that is not set is
`none`; `debug` is a flag. -/
structure Config where
  baseUrl : Str
  googleClientId : Option Str
  googleClientSecret : Option Str
  publicUrl : Option Str
  debug : Bool
deriving DecidableEq

/-- JavaScript truthiness of an optional string: set and not the empty string. -/
def truthy : Option Str → Bool
  | none => false
  | some s => !s.isEmpty

/-! ## Cookie secrets (lines 46-51) -/

/-- A byte. -/
abbrev Byte := Fin 256

/-- The random byte source behind `crypto.randomBytes`: the bytes it is going to deliver and
how many of them have been consumed so far. -/
structure Rng where
  stream : Nat → Byte
  pos : Nat

/-- The call `crypto.randomBytes(n)`: the next `n` bytes of the source, which then moves on. -/
def randomBytes (n : Nat) (g : Rng) : List Byte × Rng :=
  ((List.range n).map (fun i => g.stream (g.pos + i)), { g with pos := g.pos + n })

/-- The sixteen lowercase hexadecimal digits. -/
def hexDigits : Str := "0123456789abcdef".toList

/-- The hexadecimal digit of a value below 16. -/
def hexDigit (d : Nat) : Char := hexDigits.getD d '0'

/-- The call `buffer.toString('hex')`: two lowercase digits per byte, high nibble first. -/
def toHex (bs : List Byte) : Str :=
  bs.flatMap (fun b => [hexDigit (b.val / 16), hexDigit (b.val % 16)])

/-- The method `Array.prototype.map` with a callback that consumes randomness: the callback
runs once per element, left to right. -/
def mapRng {α β : Type} (f : α → Rng → β × Rng) : List α → Rng → List β × Rng
  | [], g => ([], g)
  | a :: as, g =>
    let r := f a g
    let rs := mapRng f as r.2
    (r.1 :: rs.1, rs.2)

/-- The callback `n => crypto.randomBytes(64).toString('hex')`. -/
def secretCallback (_n : Nat) (g : Rng) : Str × Rng :=
  let r := randomBytes 64 g
  (toHex r.1, r.2)

/-- The constant `cookieSecrets`: `[1, 2, 3, 4].map(n => crypto.randomBytes(64).toString('hex'))`,
together with the source after the four draws. -/
def cookieSecrets (g : Rng) : List Str × Rng :=
  mapRng secretCallback [1, 2, 3, 4] g

/-- The constant `ONE_HOUR`, in milliseconds. -/
def ONE_HOUR : Nat := 1000 * 60 * 60

/-- The options object handed to `session(...)` (lines 54-63). -/
structure SessionOptions where
  storeCheckPeriod : Nat
  saveUninitialized : Bool
  resave : Bool
  rolling : Bool
  cookieMaxAge : Nat
  secret : List Str
deriving DecidableEq

/-! ## Template rewrite (lines 132-138) -/

/-- The replacement-string expansion of `String.prototype.replace` for a pattern without
capture groups: `$$` is a dollar sign, `$&` the matched text, `$` followed by a grave accent
the text before the match, `$` followed by an apostrophe the text after it; everything else
is copied. -/
def getSubstitution (matched before after : Str) : Str → Str
  | [] => []
  | [c] => [c]
  | c :: d :: t =>
    if c = '$' then
      if d = '$' then '$' :: getSubstitution matched before after t
      else if d = '&' then matched ++ getSubstitution matched before after t
      else if d = grave then before ++ getSubstitution matched before after t
      else if d = apos then after ++ getSubstitution matched before after t
      else c :: getSubstitution matched before after (d :: t)
    else c :: getSubstitution matched before after (d :: t)
termination_by structural s => s

/-- The scan of `str.replace(/pat/g, tmpl)` for a literal, non-empty pattern `pat`: `skip`
counts the characters of the current match still to be passed over, `before` is the part of
the input already scanned. Matches are found left to right and do not overlap; replaced
text is not scanned again. -/
def replaceGo (pat tmpl : Str) : Nat → Str → Str → Str
  | _, _, [] => []
  | skip + 1, before, c :: rest => replaceGo pat tmpl skip (before ++ [c]) rest
  | 0, before, c :: rest =>
    if pat.isPrefixOf (c :: rest) then
      getSubstitution pat before ((c :: rest).drop pat.length) tmpl
        ++ replaceGo pat tmpl (pat.length - 1) (before ++ [c]) rest
    else c :: replaceGo pat tmpl 0 (before ++ [c]) rest

/-- The call `str.replace(/pat/g, tmpl)` for a literal, non-empty pattern. -/
def replaceAll (pat tmpl str : Str) : Str :=
  replaceGo pat tmpl 0 [] str

/-- The pattern `="/dir`. -/
def assetPattern (dir : Str) : Str := '=' :: dq :: '/' :: dir

/-- The template literal built from `baseUrl` and a directory name: `="`, `baseUrl`, `/dir`. -/
def assetReplacement (baseUrl dir : Str) : Str := '=' :: dq :: (baseUrl ++ '/' :: dir)

/-- One step of the chain: `.replace(/="\/dir/g, ...)` with the template literal for `dir`. -/
def rewriteDir (baseUrl dir html : Str) : Str :=
  replaceAll (assetPattern dir) (assetReplacement baseUrl dir) html

/-- The constant `baseUrlHtml`: the five global replaces applied one after the other. -/
def baseUrlHtml (baseUrl html : Str) : Str :=
  rewriteDir baseUrl "static".toList
    (rewriteDir baseUrl "fonts".toList
      (rewriteDir baseUrl "images".toList
        (rewriteDir baseUrl "javascripts".toList
          (rewriteDir baseUrl "stylesheets".toList html))))

/-- The five asset directories, in the order of the chain. -/
def assetDirs : List Str :=
  ["stylesheets".toList, "javascripts".toList, "images".toList, "fonts".toList,
    "static".toList]

/-- One pass over a text in which every occurrence of `="/dir`, for the directories `dirs`,
becomes `="`, `baseUrl`, `/dir`, and every other character is copied; `skip` counts the
characters of the current occurrence still to be passed over. -/
def substituteDirs (dirs : List Str) (baseUrl : Str) : Nat → Str → Str
  | _, [] => []
  | skip + 1, _ :: rest => substituteDirs dirs baseUrl skip rest
  | 0, c :: rest =>
    match dirs.find? (fun d => (assetPattern d).isPrefixOf (c :: rest)) with
    | some d => assetReplacement baseUrl d ++ substituteDirs dirs baseUrl (d.length + 2) rest
    | none => c :: substituteDirs dirs baseUrl 0 rest

/-- The single simultaneous substitution the template rewrite is meant to be: one pass over
the template in which every occurrence of `="/stylesheets`, `="/javascripts`, `="/images`,
`="/fonts` and `="/static` is prefixed with `baseUrl` once, and every other character is
unchanged. -/
def substituteOnce (baseUrl html : Str) : Str :=
  substituteDirs assetDirs baseUrl 0 html

/-! ## Routers and the middleware stack (lines 27-143) -/

/-- The route modules required by `app.js`. -/
inductive Router
  | homepage | app | version | users | forgotPassword | passwordReset | connections
  | queries | queryResult | downloadResults | schemaInfo | configValues | tags
  | signupSigninSignout | oauth
deriving DecidableEq, Repr

/-- The array literal `routers` (lines 93-108). -/
def baseRouters : List Router :=
  [.homepage, .app, .version, .users, .forgotPassword, .passwordReset, .connections,
    .queries, .queryResult, .downloadResults, .schemaInfo, .configValues, .tags,
    .signupSigninSignout]

/-- The array `routers` after the conditional push of the oauth router (lines 110-115). -/
def routers (cfg : Config) : List Router :=
  if truthy cfg.googleClientId && truthy cfg.googleClientSecret && truthy cfg.publicUrl then
    baseRouters ++ [.oauth]
  else baseRouters

/-- The functions handed to `app.use`. -/
inductive Handler
  | helmet | referrerPolicy | errorhandler | favicon | bodyParserJson
  | bodyParserUrlencoded
  | session (opts : SessionOptions)
  | passportInitialize | passportSession | static | morgan
  | configHelper
  | router (r : Router)
  | apiCatchAll
  | clientApp (body : Str)
deriving DecidableEq

/-- One entry of the middleware stack: the mount path and the function. A call
`app.use(fn)` mounts at `/`. -/
structure Layer where
  path : Str
  handler : Handler
deriving DecidableEq

/-- The call `app.use(fn)`. -/
def use (h : Handler) : Layer := ⟨['/'], h⟩

/-- The call `app.use(path, fn)`. -/
def useAt (path : Str) (h : Handler) : Layer := ⟨path, h⟩

/-- The application object after `app.js` has run. -/
structure App where
  env : Str
  stack : List Layer

/-- The layers of the Express set-up section (lines 30-85), in source order. `g` is the
random source at start-up. -/
def setupLayers (cfg : Config) (g : Rng) : List Layer :=
  [use .helmet, use .referrerPolicy]
  ++ (if cfg.debug then [use .errorhandler] else [])
  ++ [use .favicon, use .bodyParserJson, use .bodyParserUrlencoded,
      use (.session
        { storeCheckPeriod := ONE_HOUR
          saveUninitialized := false
          resave := false
          rolling := true
          cookieMaxAge := ONE_HOUR
          secret := (cookieSecrets g).1 }),
      use .passportInitialize, use .passportSession,
      useAt cfg.baseUrl .static]
  ++ (if cfg.debug then [use .morgan] else [])
  ++ [use .configHelper]

/-- The loop `routers.forEach(router => app.use(baseUrl, router))` (lines 117-119). -/
def routerLayers (cfg : Config) : List Layer :=
  (routers cfg).map (fun r => useAt cfg.baseUrl (.router r))

/-- The API catch-all, `app.use(baseUrl + '/api/', ...)` (lines 122-125). -/
def apiLayer (cfg : Config) : Layer :=
  useAt (cfg.baseUrl ++ "/api/".toList) .apiCatchAll

/-- The client-side fallback (lines 130-143); `template` is the content of
`build/index-template.html` when that file exists. -/
def clientLayers (cfg : Config) (template : Option Str) : List Layer :=
  match template with
  | some html => [use (.clientApp (baseUrlHtml cfg.baseUrl html))]
  | none => []

/-- The body of `app.js`, in source order. -/
def buildApp (cfg : Config) (g : Rng) (template : Option Str) : App where
  env := if cfg.debug then "development".toList else "production".toList
  stack := setupLayers cfg g ++ routerLayers cfg ++ [apiLayer cfg] ++ clientLayers cfg template

/-! ## Request handling

Express keeps the registered functions in a list and offers a request to them in
registration order. What the third-party middleware and the route modules do with a request
is outside `app.js`; it is a parameter of the model, as is the response state they leave
behind. The two layers Express installs itself ahead of the registered ones (query parsing
and request set-up) always hand on and are left out. -/

/-- An incoming request: its method, in upper case, and the path of its URL. -/
structure Request where
  method : Str
  path : Str
deriving DecidableEq

/-- An error passed to `next(err)`: its numeric `status` and `statusCode` properties, when
it has them. -/
structure Err where
  status : Option Nat
  statusCode : Option Nat
deriving DecidableEq

/-- The argument of a call of `next`: a falsy value or the string `route` (the request goes
on to the next layer), the string `router` (the request leaves the stack), or any other
value (an error). -/
inductive NextArg
  | nothing
  | router
  | error (err : Err)
deriving DecidableEq

/-- What a middleware function does with a request: hand over with `next()`, leave the stack
with `next('router')`, hand over an error with `next(err)` (or throw), send a response, or
never do any of these. A function that hands over leaves `res.statusCode` at `statusCode`. -/
inductive Outcome
  | next (statusCode : Nat)
  | exit
  | fail (err : Err) (statusCode : Nat)
  | respond (status : Nat) (body : Str)
  | hang
deriving DecidableEq

/-- The call `next(arg)` by a function that did not touch the response. -/
def callNext (arg : NextArg) (statusCode : Nat) : Outcome :=
  match arg with
  | .nothing => .next statusCode
  | .router => .exit
  | .error e => .fail e statusCode

/-- The settlement of the promise `configUtil.getHelper(db)`: resolved, rejected with a
value (a synchronous throw counts as a rejection), or never settled. -/
inductive HelperResult
  | resolved
  | rejected (reason : NextArg)
  | pending
deriving DecidableEq

/-- The response a request ends with; `servedBy` is the registered function that sent it,
`none` when Express itself answered. -/
structure Response where
  status : Nat
  body : Str
  servedBy : Option Handler
deriving DecidableEq

/-- The world outside `app.js` while one request is handled. -/
structure Env where
  -- the behaviour of the third-party middleware and of the route modules, given the
  -- current `res.statusCode`
  library : Handler → Request → Nat → Outcome
  -- the behaviour of the error-handling middleware `errorhandler()`
  onError : Err → Request → Nat → Outcome
  -- the settlement of the promise `configUtil.getHelper(db)`
  getHelper : HelperResult
  -- whether the conditional headers of the request are fresh for a response with this body
  fresh : Request → Str → Bool
  -- whether `res.send` also drops the body of a 205 response (Express 4.18 and later)
  strips205 : Bool
  -- whether Express offers a request for a path to a layer whose mount path holds
  -- route-pattern characters
  routePattern : Str → Str → Bool
  -- the body Express writes when it answers itself
  finalBody : Option Err → Request → Str

/-- The one registered function that takes four arguments, and so is an error handler. -/
def Handler.isErrorHandler : Handler → Bool
  | .errorhandler => true
  | _ => false

/-- The fallback registered on line 139. -/
def Handler.isClientApp : Handler → Bool
  | .clientApp _ => true
  | _ => false

/-- The call `res.send(body)` with `res.statusCode` at `statusCode`: a fresh conditional
`GET` or `HEAD` of a successful response is answered 304; a 204 or 304 (or, in later
versions, 205) response loses its body; a `HEAD` request gets no body. The result is the
status and the body written. -/
def resSend (env : Env) (req : Request) (statusCode : Nat) (body : Str) : Nat × Str :=
  let conditional := req.method = "GET".toList ∨ req.method = "HEAD".toList
  let successful := (200 ≤ statusCode ∧ statusCode < 300) ∨ statusCode = 304
  let status := if conditional ∧ successful ∧ env.fresh req body = true then 304 else statusCode
  let chunk :=
    if status = 204 ∨ status = 304 ∨ (status = 205 ∧ env.strips205 = true) then [] else body
  (status, if req.method = "HEAD".toList then [] else chunk)

/-- A registered function applied to a request that carries no error, with `res.statusCode`
at `statusCode`. The three functions written in `app.js` are spelled out: the config helper
(lines 74-85), the API catch-all (lines 122-125, `res.sendStatus(404)`, which sets the status
and sends its standard text) and the client-side fallback (line 139,
`res.send(baseUrlHtml)`). -/
def Handler.run (env : Env) (req : Request) (statusCode : Nat) : Handler → Outcome
  | .configHelper =>
    match env.getHelper with
    | .resolved => .next statusCode
    | .rejected reason => callNext reason statusCode
    | .pending => .hang
  | .apiCatchAll =>
    .respond (resSend env req 404 "Not Found".toList).1 (resSend env req 404 "Not Found".toList).2
  | .clientApp body =>
    .respond (resSend env req statusCode body).1 (resSend env req statusCode body).2
  | h => env.library h req statusCode

/-- The characters a mount path can hold without Express reading them as part of a route
pattern: letters, digits, the slash, the hyphen and the underscore. -/
def plainChar (c : Char) : Bool :=
  c.isAlphanum || c == '/' || c == '-' || c == '_'

/-- Whether a mount path is plain text for Express. -/
def plainMount (mount : Str) : Bool :=
  mount.all plainChar

/-- The mount path without one trailing slash. -/
def stripSlash (mount : Str) : Str :=
  if mount.getLast? = some '/' then mount.dropLast else mount

/-- Whether `p` begins with `m`, letters compared without regard to case. -/
def startsWithNoCase : Str → Str → Bool
  | [], _ => true
  | _ :: _, [] => false
  | a :: m, b :: p => a.toLower == b.toLower && startsWithNoCase m p

/-- Whether a layer mounted at a plain path `mount` is offered a request for `path`: the
mount `/` takes every request; otherwise the path has to begin with the mount (less a
trailing slash), and go on with a slash or end there. -/
def mountMatches (mount path : Str) : Bool :=
  if mount = ['/'] then true
  else
    let m := stripSlash mount
    startsWithNoCase m path &&
      (match path.drop m.length with
       | [] => true
       | c :: _ => c == '/')

/-- Whether Express offers the request to a layer. Express compiles the mount path as a
route pattern: a plain path matches as text, and what a path with pattern characters
matches is left to the world. -/
def offered (env : Env) (l : Layer) (req : Request) : Bool :=
  if plainMount l.path then mountMatches l.path req.path
  else env.routePattern l.path req.path

/-- Whether a property of an error is a number between 400 and 599. -/
def validErrorStatus : Option Nat → Bool
  | some s => decide (400 ≤ s) && decide (s < 600)
  | none => false

/-- The status Express answers with for an unhandled error: the `status` of the error, else
its `statusCode`, when between 400 and 599; else `res.statusCode` when in that range; else
500. -/
def errStatus (e : Err) (statusCode : Nat) : Nat :=
  if validErrorStatus e.status then e.status.getD 500
  else if validErrorStatus e.statusCode then e.statusCode.getD 500
  else if 400 ≤ statusCode ∧ statusCode < 600 then statusCode
  else 500

/-- The answer of Express itself, once the stack is exhausted or left: 404 without an error,
the status of the error otherwise. -/
def finalResponse (env : Env) (req : Request) (err : Option Err) (statusCode : Nat) :
    Response :=
  match err with
  | none => ⟨404, env.finalBody none req, none⟩
  | some e => ⟨errStatus e statusCode, env.finalBody (some e) req, none⟩

/-- The walk of Express over the stack, with the error in flight, if any, and the current
`res.statusCode`. Without an error, layers that are not offered the request and error
handlers are passed over; with an error, only error handlers that are offered the request
run. When the stack is exhausted Express answers itself. The result is `none` when the
request is never answered. -/
def dispatch (env : Env) (req : Request) : List Layer → Option Err → Nat → Option Response
  | [], err, sc => some (finalResponse env req err sc)
  | l :: rest, none, sc =>
    if offered env l req && !l.handler.isErrorHandler then
      match l.handler.run env req sc with
      | .next sc2 => dispatch env req rest none sc2
      | .exit => some (finalResponse env req none sc)
      | .fail e sc2 => dispatch env req rest (some e) sc2
      | .respond st body => some ⟨st, body, some l.handler⟩
      | .hang => none
    else dispatch env req rest none sc
  | l :: rest, some e, sc =>
    if offered env l req && l.handler.isErrorHandler then
      match env.onError e req sc with
      | .next sc2 => dispatch env req rest none sc2
      | .exit => some (finalResponse env req none sc)
      | .fail e2 sc2 => dispatch env req rest (some e2) sc2
      | .respond st body => some ⟨st, body, some l.handler⟩
      | .hang => none
    else dispatch env req rest (some e) sc

/-- The response of the application to a request; a fresh response object has status 200. -/
def App.handle (a : App) (env : Env) (req : Request) : Option Response :=
  dispatch env req a.stack none 200

/-- The registered function that answered the request, if one did. -/
def App.servedBy (a : App) (env : Env) (req : Request) : Option Handler :=
  (a.handle env req).bind (fun r => r.servedBy)

/-- A layer hands the request on: when it is offered the request and is not an error
handler, it calls `next()`, whatever `res.statusCode` is. -/
def handsOn (env : Env) (req : Request) (l : Layer) : Prop :=
  offered env l req = true → l.handler.isErrorHandler = false →
    ∀ sc, ∃ sc2, l.handler.run env req sc = .next sc2

/-- A layer hands the request on and leaves `res.statusCode` as it found it. -/
def handsOnUntouched (env : Env) (req : Request) (l : Layer) : Prop :=
  offered env l req = true → l.handler.isErrorHandler = false →
    ∀ sc, l.handler.run env req sc = .next sc

/-- The mount path and router of a layer that holds a router. -/
def Layer.asRouter (l : Layer) : Option (Str × Router) :=
  match l.handler with
  | .router r => some (l.path, r)
  | _ => none

/-- The options of a layer that holds the session middleware. -/
def Layer.asSession (l : Layer) : Option SessionOptions :=
  match l.handler with
  | .session o => some o
  | _ => none

/-- The routers of a stack with their mount paths, in stack order. -/
def mountedRouters (stack : List Layer) : List (Str × Router) :=
  stack.filterMap Layer.asRouter

/-- The session options of a stack, in stack order. -/
def sessionOptions (stack : List Layer) : List SessionOptions :=
  stack.filterMap Layer.asSession

/-! ## Query preview (specification section 4.4) -/

/-- A row of a result: its cell values, as text. -/
abbrev Row := List Str

/-- The result of a preview. -/
structure ResultSet where
  rows : List Row
  truncated : Bool
deriving DecidableEq

/-- Modelled from the spec: the query execution core (the driver adapters, the executor and
the result streamer behind `routes/queries.js`, `routes/query-result.js` and
`routes/download-results.js`) is not part of the source. Following sections 4.2 to 4.4, a
preview fails with the error text of the driver when the query fails; otherwise it keeps
the first `limit` rows the query yields, a hard cutoff, and marks the result truncated when
the cap was reached before the query was exhausted. -/
def executePreview (driver : Except Str (List Row)) (limit : Nat) : Except Str ResultSet :=
  match driver with
  | .error msg => .error msg
  | .ok yielded => .ok { rows := yielded.take limit, truncated := decide (limit < yielded.length) }

/-! ## Concrete inputs used in the checks below -/

/-- A configuration with an empty base URL, no Google settings and `debug` off. -/
def plainConfig : Config := ⟨[], none, none, none, false⟩

/-- A configuration with all three Google settings and `debug` on. -/
def googleConfig : Config :=
  ⟨"/sqlpad".toList, some "id".toList, some "secret".toList, some "http://host".toList, true⟩

/-- A configuration whose base URL holds route-pattern characters. -/
def patternConfig : Config := ⟨"/a(b)".toList, none, none, none, false⟩

/-- A random source that delivers the bytes 0, 1, 2, ... in turn (modulo 256). -/
def countingRng : Rng := ⟨fun i => ⟨i % 256, Nat.mod_lt i (by decide)⟩, 0⟩

/-- A request for an API path no router knows. -/
def apiRequest : Request := ⟨"GET".toList, "/api/nowhere".toList⟩

/-- A request for an API path no router knows, under the base URL `/sqlpad`. -/
def sqlpadApiRequest : Request := ⟨"GET".toList, "/sqlpad/api/nowhere".toList⟩

/-- A request for a page of the client-side app, under the base URL `/sqlpad`. -/
def pageRequest : Request := ⟨"GET".toList, "/sqlpad/queries/5".toList⟩

/-- A `HEAD` request for a page of the client-side app. -/
def headRequest : Request := ⟨"HEAD".toList, "/sqlpad/queries/5".toList⟩

/-- A request below the literal text of the base URL `/a(b)`. -/
def patternRequest : Request := ⟨"GET".toList, "/a(b)/api/x".toList⟩

/-- A world in which every third-party middleware and every router hands the request on
without touching the response, the config helper resolves, no request is conditional, and
a mount path with pattern characters matches no request. -/
def quietEnv : Env :=
  { library := fun _ _ sc => .next sc
    onError := fun e _ sc => .respond (errStatus e sc) []
    getHelper := .resolved
    fresh := fun _ _ => false
    strips205 := true
    routePattern := fun _ _ => false
    finalBody := fun _ _ => [] }

/-- The world of `quietEnv`, except that `configUtil.getHelper(db)` rejects with an error
that carries no status. -/
def brokenDbEnv : Env := { quietEnv with getHelper := .rejected (.error ⟨none, none⟩) }

/-- The world of `quietEnv`, except that the queries router answers the request. -/
def answeringEnv : Env :=
  { quietEnv with
    library := fun h _ sc =>
      match h with
      | .router .queries => .respond 200 "[]".toList
      | _ => .next sc }

/-- A small template with one image reference. -/
def imageTemplate : Str := "<img src=".toList ++ dq :: "/images/logo.png".toList ++ [dq, '>']

/-! ## Lemmas -/

theorem toHex_length (bs : List Byte) : (toHex bs).length = 2 * bs.length := by
  induction bs with
  | nil => rfl
  | cons b bs ih =>
    simp only [toHex, List.flatMap_cons, List.length_append, List.length_cons,
      List.length_nil] at ih ⊢
    omega

theorem hexDigit_mem (d : Nat) (h : d < 16) : hexDigit d ∈ hexDigits := by
  interval_cases d <;> decide

theorem toHex_chars (bs : List Byte) : ∀ c ∈ toHex bs, c ∈ hexDigits := by
  intro c hc
  simp only [toHex, List.mem_flatMap, List.mem_cons, List.mem_singleton, List.not_mem_nil,
    or_false] at hc
  obtain ⟨b, _, hb⟩ := hc
  rcases hb with rfl | rfl
  · exact hexDigit_mem _ (by have := b.isLt; omega)
  · exact hexDigit_mem _ (Nat.mod_lt _ (by decide))

theorem cookieSecrets_eq (g : Rng) :
    (cookieSecrets g).1 =
      (List.range 4).map (fun k =>
        toHex ((List.range 64).map (fun i => g.stream (g.pos + 64 * k + i)))) := by
  simp [cookieSecrets, mapRng, secretCallback, randomBytes, List.range_succ, Nat.add_assoc]

theorem asRouter_map_routers (base : Str) (rs : List Router) :
    (rs.map (fun r => useAt base (.router r))).filterMap Layer.asRouter
      = rs.map (fun r => (base, r)) := by
  induction rs with
  | nil => rfl
  | cons r rs ih =>
    rw [List.map_cons, List.filterMap_cons, ih]
    rfl

theorem asSession_map_routers (base : Str) (rs : List Router) :
    (rs.map (fun r => useAt base (.router r))).filterMap Layer.asSession = [] := by
  induction rs with
  | nil => rfl
  | cons r rs ih =>
    rw [List.map_cons, List.filterMap_cons, ih]
    rfl

theorem mountedRouters_stack (cfg : Config) (g : Rng) (template : Option Str) :
    mountedRouters (buildApp cfg g template).stack
      = (routers cfg).map (fun r => (cfg.baseUrl, r)) := by
  cases template <;> cases hd : cfg.debug <;>
    simp only [mountedRouters, buildApp, setupLayers, routerLayers, clientLayers, hd,
      List.filterMap_append, asRouter_map_routers] <;>
    simp [Layer.asRouter, apiLayer, use, useAt]

theorem sessionOptions_stack (cfg : Config) (g : Rng) (template : Option Str) :
    sessionOptions (buildApp cfg g template).stack
      = [{ storeCheckPeriod := ONE_HOUR, saveUninitialized := false, resave := false,
           rolling := true, cookieMaxAge := ONE_HOUR, secret := (cookieSecrets g).1 }] := by
  cases template <;> cases hd : cfg.debug <;>
    simp only [sessionOptions, buildApp, setupLayers, routerLayers, clientLayers, hd,
      List.filterMap_append, asSession_map_routers] <;>
    simp [Layer.asSession, apiLayer, use, useAt]

theorem startsWithNoCase_append (m t : Str) : startsWithNoCase m (m ++ t) = true := by
  induction m with
  | nil => rfl
  | cons a m ih => simp [startsWithNoCase, ih]

theorem mountMatches_api (base path : Str) (h : base ++ "/api/".toList <+: path) :
    mountMatches (base ++ "/api/".toList) path = true := by
  obtain ⟨t, rfl⟩ := h
  have hmount : base ++ "/api/".toList = (base ++ "/api".toList) ++ ['/'] := by simp
  have hne : base ++ "/api/".toList ≠ ['/'] := by
    intro hc
    have := congrArg List.length hc
    simp at this
  have hstrip : stripSlash (base ++ "/api/".toList) = base ++ "/api".toList := by
    rw [hmount]
    simp [stripSlash]
  have hpath : base ++ "/api/".toList ++ t = (base ++ "/api".toList) ++ ('/' :: t) := by simp
  unfold mountMatches
  rw [if_neg hne]
  simp only [hstrip]
  rw [hpath, startsWithNoCase_append, List.drop_left]
  rfl

theorem dispatch_error_unhandled (env : Env) (req : Request) (e : Err) :
    ∀ (stack : List Layer) (sc : Nat), (∀ l ∈ stack, l.handler.isErrorHandler = false) →
      dispatch env req stack (some e) sc = some (finalResponse env req (some e) sc) := by
  intro stack
  induction stack with
  | nil => intro sc _; rfl
  | cons l rest ih =>
    intro sc h
    have hl := h l (List.mem_cons_self _ _)
    have hrest := ih sc (fun x hx => h x (List.mem_cons_of_mem _ hx))
    simp [dispatch, hl, hrest]

theorem dispatch_cons_cases (env : Env) (req : Request) (l : Layer) (rest : List Layer)
    (err : Option Err) (sc : Nat) (r : Response)
    (h : dispatch env req (l :: rest) err sc = some r) :
    (∃ err2 sc2, dispatch env req rest err2 sc2 = some r)
    ∨ r.servedBy = none
    ∨ (r.servedBy = some l.handler ∧ offered env l req = true
        ∧ (l.handler.isErrorHandler = true
          ∨ (err = none ∧ l.handler.run env req sc = .respond r.status r.body))) := by
  cases err with
  | none =>
    rw [dispatch] at h
    split at h
    · rename_i hc
      simp only [Bool.and_eq_true, Bool.not_eq_true', ] at hc
      split at h
      · exact Or.inl ⟨_, _, h⟩
      · right; left
        simp only [Option.some.injEq] at h
        rw [← h]; rfl
      · exact Or.inl ⟨_, _, h⟩
      · rename_i st body hrun
        right; right
        simp only [Option.some.injEq] at h
        subst h
        exact ⟨rfl, hc.1, Or.inr ⟨rfl, hrun⟩⟩
      · exact absurd h (by simp)
    · exact Or.inl ⟨_, _, h⟩
  | some e =>
    rw [dispatch] at h
    split at h
    · rename_i hc
      simp only [Bool.and_eq_true] at hc
      split at h
      · exact Or.inl ⟨_, _, h⟩
      · right; left
        simp only [Option.some.injEq] at h
        rw [← h]; rfl
      · exact Or.inl ⟨_, _, h⟩
      · right; right
        simp only [Option.some.injEq] at h
        subst h
        exact ⟨rfl, hc.1, Or.inl hc.2⟩
      · exact absurd h (by simp)
    · exact Or.inl ⟨_, _, h⟩

theorem dispatch_servedBy_mem (env : Env) (req : Request) (h : Handler) (r : Response)
    (hs : r.servedBy = some h) :
    ∀ (stack : List Layer) (err : Option Err) (sc : Nat),
      dispatch env req stack err sc = some r → ∃ l ∈ stack, l.handler = h := by
  intro stack
  induction stack with
  | nil =>
    intro err sc hd
    cases err <;> simp [dispatch, finalResponse] at hd <;> (rw [← hd] at hs; simp at hs)
  | cons l rest ih =>
    intro err sc hd
    rcases dispatch_cons_cases env req l rest err sc r hd with ⟨err2, sc2, h2⟩ | h2 | h2
    · obtain ⟨x, hx, hxh⟩ := ih err2 sc2 h2
      exact ⟨x, List.mem_cons_of_mem _ hx, hxh⟩
    · rw [h2] at hs; exact absurd hs (by simp)
    · refine ⟨l, List.mem_cons_self _ _, ?_⟩
      have := h2.1.symm.trans hs
      simpa using this

theorem dispatch_servedBy_run (env : Env) (req : Request) (h : Handler) (r : Response)
    (hs : r.servedBy = some h) (hne : h.isErrorHandler = false) :
    ∀ (stack : List Layer) (err : Option Err) (sc : Nat),
      dispatch env req stack err sc = some r →
        ∃ sc2, h.run env req sc2 = .respond r.status r.body := by
  intro stack
  induction stack with
  | nil =>
    intro err sc hd
    cases err <;> simp [dispatch, finalResponse] at hd <;> (rw [← hd] at hs; simp at hs)
  | cons l rest ih =>
    intro err sc hd
    rcases dispatch_cons_cases env req l rest err sc r hd with ⟨err2, sc2, h2⟩ | h2 | h2
    · exact ih err2 sc2 h2
    · rw [h2] at hs; exact absurd hs (by simp)
    · have hl : l.handler = h := by
        have := h2.1.symm.trans hs
        simpa using this
      rcases h2.2.2 with he | ⟨_, hrun⟩
      · rw [hl, hne] at he; exact absurd he (by simp)
      · exact ⟨sc, hl ▸ hrun⟩

theorem dispatch_pass (env : Env) (req : Request) (rest : List Layer) :
    ∀ pre : List Layer, (∀ l ∈ pre, handsOn env req l) →
      ∀ sc, ∃ sc2, dispatch env req (pre ++ rest) none sc = dispatch env req rest none sc2 := by
  intro pre
  induction pre with
  | nil => intro _ sc; exact ⟨sc, rfl⟩
  | cons l pre ih =>
    intro h sc
    have hrest := ih (fun x hx => h x (List.mem_cons_of_mem _ hx))
    have hl := h l (List.mem_cons_self _ _)
    rw [List.cons_append, dispatch]
    by_cases hm : offered env l req = true
    · cases he : l.handler.isErrorHandler
      · obtain ⟨sc1, hrun⟩ := hl hm he sc
        obtain ⟨sc2, h2⟩ := hrest sc1
        exact ⟨sc2, by simp [hm, he, hrun, h2]⟩
      · obtain ⟨sc2, h2⟩ := hrest sc
        exact ⟨sc2, by simp [hm, he, h2]⟩
    · obtain ⟨sc2, h2⟩ := hrest sc
      exact ⟨sc2, by simp [hm, h2]⟩

theorem dispatch_pass_untouched (env : Env) (req : Request) (rest : List Layer) :
    ∀ pre : List Layer, (∀ l ∈ pre, handsOnUntouched env req l) →
      ∀ sc, dispatch env req (pre ++ rest) none sc = dispatch env req rest none sc := by
  intro pre
  induction pre with
  | nil => intro _ sc; rfl
  | cons l pre ih =>
    intro h sc
    have hrest := ih (fun x hx => h x (List.mem_cons_of_mem _ hx)) sc
    have hl := h l (List.mem_cons_self _ _)
    rw [List.cons_append, dispatch]
    by_cases hm : offered env l req = true
    · cases he : l.handler.isErrorHandler
      · simp [hm, he, hl hm he sc, hrest]
      · simp [hm, he, hrest]
    · simp [hm, hrest]

theorem dispatch_stops_at (env : Env) (req : Request) (c : Layer) (post : List Layer)
    (hc : offered env c req = true) (hce : c.handler.isErrorHandler = false)
    (hrun : ∀ sc, ∃ st body, c.handler.run env req sc = .respond st body)
    (hpost : ∀ l ∈ post, l.handler.isErrorHandler = false) (h : Handler) (r : Response)
    (hs : r.servedBy = some h) :
    ∀ (pre : List Layer) (err : Option Err) (sc : Nat),
      dispatch env req (pre ++ c :: post) err sc = some r → ∃ l ∈ pre ++ [c], l.handler = h := by
  intro pre
  induction pre with
  | nil =>
    intro err sc hd
    cases err with
    | none =>
      obtain ⟨st, body, hr⟩ := hrun sc
      simp only [List.nil_append, dispatch, hc, hce, hr, Bool.not_false, Bool.and_self,
        if_true, Option.some.injEq] at hd
      refine ⟨c, by simp, ?_⟩
      rw [← hd] at hs
      simpa using hs
    | some e =>
      rw [List.nil_append, dispatch] at hd
      simp only [hce, Bool.and_false, Bool.false_eq_true, if_false,
        dispatch_error_unhandled env req e post sc hpost, Option.some.injEq] at hd
      rw [← hd] at hs
      simp [finalResponse] at hs
  | cons l pre ih =>
    intro err sc hd
    rw [List.cons_append] at hd
    rcases dispatch_cons_cases env req l _ err sc r hd with ⟨err2, sc2, h2⟩ | h2 | h2
    · obtain ⟨x, hx, hxh⟩ := ih err2 sc2 h2
      exact ⟨x, List.mem_cons_of_mem _ hx, hxh⟩
    · rw [h2] at hs; exact absurd hs (by simp)
    · refine ⟨l, by simp, ?_⟩
      have := h2.1.symm.trans hs
      simpa using this

theorem setupLayers_handlers (cfg : Config) (g : Rng) :
    ∀ l ∈ setupLayers cfg g, l.handler ≠ .apiCatchAll ∧ l.handler.isClientApp = false := by
  cases hd : cfg.debug <;> simp [setupLayers, hd, use, useAt, Handler.isClientApp]

theorem setupLayers_no_router (cfg : Config) (g : Rng) :
    ∀ l ∈ setupLayers cfg g, ∀ r, l.handler ≠ .router r := by
  cases hd : cfg.debug <;> simp [setupLayers, hd, use, useAt]

theorem routerLayers_handlers (cfg : Config) :
    ∀ l ∈ routerLayers cfg, l.handler ≠ .apiCatchAll ∧ l.handler.isClientApp = false := by
  intro l hl
  simp only [routerLayers, List.mem_map] at hl
  obtain ⟨r, _, rfl⟩ := hl
  simp [useAt, Handler.isClientApp]

theorem clientLayers_handlers (cfg : Config) (template : Option Str) :
    ∀ l ∈ clientLayers cfg template, l.handler.isErrorHandler = false := by
  intro l hl
  cases template with
  | none => simp [clientLayers] at hl
  | some html =>
    simp only [clientLayers, List.mem_singleton] at hl
    subst hl
    rfl

theorem plainMount_api (base : Str) (h : plainMount base = true) :
    plainMount (base ++ "/api/".toList) = true := by
  unfold plainMount at h ⊢
  rw [List.all_append, h]
  decide

theorem mountMatches_base (base path : Str) (h : base ++ "/api/".toList <+: path) :
    mountMatches base path = true := by
  obtain ⟨t, rfl⟩ := h
  unfold mountMatches
  by_cases h1 : base = ['/']
  · rw [if_pos h1]
  · rw [if_neg h1]
    by_cases hl : base.getLast? = some '/'
    · have hb : base.dropLast ++ ['/'] = base := List.dropLast_append_getLast? _ hl
      have hstrip : stripSlash base = base.dropLast := by simp [stripSlash, hl]
      have hpath : base ++ "/api/".toList ++ t
          = base.dropLast ++ ('/' :: ("/api/".toList ++ t)) := by
        conv_lhs => rw [← hb]
        simp
      simp only [hstrip]
      rw [hpath, startsWithNoCase_append, List.drop_left]
      rfl
    · have hstrip : stripSlash base = base := by simp [stripSlash, hl]
      have hpath : base ++ "/api/".toList ++ t = base ++ ('/' :: ("api/".toList ++ t)) := by
        simp
      simp only [hstrip]
      rw [hpath, startsWithNoCase_append, List.drop_left]
      rfl

theorem offered_api (env : Env) (cfg : Config) (req : Request)
    (hplain : plainMount cfg.baseUrl = true)
    (hpath : cfg.baseUrl ++ "/api/".toList <+: req.path) :
    offered env (apiLayer cfg) req = true := by
  have hp : plainMount (apiLayer cfg).path = true := plainMount_api _ hplain
  unfold offered
  rw [if_pos hp]
  exact mountMatches_api _ _ hpath

theorem offered_base (env : Env) (cfg : Config) (req : Request) (h : Handler)
    (hplain : plainMount cfg.baseUrl = true)
    (hpath : cfg.baseUrl ++ "/api/".toList <+: req.path) :
    offered env (useAt cfg.baseUrl h) req = true := by
  have hp : plainMount (useAt cfg.baseUrl h).path = true := hplain
  unfold offered
  rw [if_pos hp]
  exact mountMatches_base _ _ hpath

theorem offered_use (env : Env) (h : Handler) (req : Request) :
    offered env (use h) req = true := by
  have hp : plainMount (use h).path = true := (by decide : plainMount ['/'] = true)
  unfold offered
  rw [if_pos hp]
  rfl

theorem quietEnv_run (req : Request) (sc : Nat) (h : Handler) (hapi : h ≠ .apiCatchAll)
    (hclient : h.isClientApp = false) : h.run quietEnv req sc = .next sc := by
  cases h <;> simp_all [Handler.run, quietEnv, Handler.isClientApp]

theorem answeringEnv_run (req : Request) (sc : Nat) (h : Handler) (hapi : h ≠ .apiCatchAll)
    (hclient : h.isClientApp = false) (hq : h ≠ .router .queries) :
    h.run answeringEnv req sc = .next sc := by
  cases h <;> simp_all [Handler.run, answeringEnv, quietEnv, Handler.isClientApp]

theorem resSend_notFound (env : Env) (req : Request) :
    resSend env req 404 "Not Found".toList
      = (404, if req.method = "HEAD".toList then [] else "Not Found".toList) := by
  simp [resSend]

theorem stack_split (cfg : Config) (g : Rng) (template : Option Str) :
    (buildApp cfg g template).stack
      = (setupLayers cfg g ++ routerLayers cfg) ++ apiLayer cfg :: clientLayers cfg template := by
  simp [buildApp]

theorem before_api (cfg : Config) (g : Rng) :
    ∀ l ∈ setupLayers cfg g ++ routerLayers cfg, (l.handler != Handler.apiCatchAll) = true := by
  intro l hl
  rcases List.mem_append.mp hl with h | h
  · simpa using (setupLayers_handlers cfg g l h).1
  · simpa using (routerLayers_handlers cfg l h).1

theorem resSend_body (env : Env) (req : Request) (sc : Nat) (body : Str) :
    (resSend env req sc body).2 = body ∨ (resSend env req sc body).2 = [] := by
  unfold resSend
  simp only
  split_ifs <;> simp

theorem resSend_plain (env : Env) (req : Request) (body : Str)
    (hhead : req.method ≠ "HEAD".toList) (hfresh : env.fresh req body = false) :
    resSend env req 200 body = (200, body) := by
  have hh : req.method ≠ ['H', 'E', 'A', 'D'] := hhead
  simp [resSend, hh, hfresh]

theorem resSend_head (env : Env) (req : Request) (sc : Nat) (body : Str)
    (hhead : req.method = "HEAD".toList) : (resSend env req sc body).2 = [] := by
  have hh : req.method = ['H', 'E', 'A', 'D'] := hhead
  simp [resSend, hh]

/-! ### The template rewrite -/

theorem getSubstitution_plain (matched before after : Str) :
    ∀ tmpl : Str, '$' ∉ tmpl → getSubstitution matched before after tmpl = tmpl := by
  intro tmpl
  induction tmpl with
  | nil => intro _; rfl
  | cons c t ih =>
    intro h
    have hc : c ≠ '$' := fun hc => h (hc ▸ List.mem_cons_self _ _)
    have ht : '$' ∉ t := fun ht => h (List.mem_cons_of_mem _ ht)
    cases t with
    | nil => rfl
    | cons d t2 =>
      rw [getSubstitution, if_neg hc, ih ht]

theorem replaceGo_nil (pat tmpl : Str) (k : Nat) (before : Str) :
    replaceGo pat tmpl k before [] = [] := by
  cases k <;> rfl

theorem replaceGo_skip (pat tmpl : Str) :
    ∀ (s : Str) (k : Nat) (before : Str),
      replaceGo pat tmpl k before s = replaceGo pat tmpl 0 (before ++ s.take k) (s.drop k) := by
  intro s
  induction s with
  | nil => intro k before; simp [replaceGo_nil]
  | cons c rest ih =>
    intro k before
    cases k with
    | zero => simp
    | succ k =>
      rw [replaceGo, ih]
      simp

theorem replaceGo_before (pat tmpl : Str) (h : '$' ∉ tmpl) :
    ∀ (s : Str) (k : Nat) (b1 b2 : Str),
      replaceGo pat tmpl k b1 s = replaceGo pat tmpl k b2 s := by
  intro s
  induction s with
  | nil => intro k b1 b2; simp [replaceGo_nil]
  | cons c rest ih =>
    intro k b1 b2
    cases k with
    | zero =>
      simp only [replaceGo, getSubstitution_plain _ _ _ _ h]
      rw [ih _ (b1 ++ [c]) (b2 ++ [c]), ih 0 (b1 ++ [c]) (b2 ++ [c])]
    | succ k =>
      simp only [replaceGo]
      exact ih _ _ _

theorem replaceAll_nil (pat tmpl : Str) : replaceAll pat tmpl [] = [] := rfl

theorem replaceAll_nomatch (pat tmpl : Str) (h : '$' ∉ tmpl) (c : Char) (s : Str)
    (hno : ¬ pat <+: c :: s) :
    replaceAll pat tmpl (c :: s) = c :: replaceAll pat tmpl s := by
  have hp : pat.isPrefixOf (c :: s) = false := by
    rw [Bool.eq_false_iff]
    intro hp
    exact hno (List.isPrefixOf_iff_prefix.mp hp)
  unfold replaceAll
  rw [replaceGo, hp]
  simp only [Bool.false_eq_true, if_false]
  rw [replaceGo_before pat tmpl h s 0 ([] ++ [c]) []]

theorem replaceAll_match (pat tmpl : Str) (h : '$' ∉ tmpl) (hne : pat ≠ []) (rest : Str) :
    replaceAll pat tmpl (pat ++ rest) = tmpl ++ replaceAll pat tmpl rest := by
  cases pat with
  | nil => exact absurd rfl hne
  | cons p pat2 =>
    have hp : (p :: pat2).isPrefixOf (p :: (pat2 ++ rest)) = true :=
      List.isPrefixOf_iff_prefix.mpr ⟨rest, rfl⟩
    unfold replaceAll
    rw [List.cons_append, replaceGo, hp]
    simp only [if_true]
    rw [getSubstitution_plain _ _ _ _ h, replaceGo_skip]
    simp only [List.length_cons, Nat.add_sub_cancel, List.take_left, List.drop_left]
    rw [replaceGo_before (p :: pat2) tmpl h rest 0 ([] ++ [p] ++ pat2) []]

theorem substituteDirs_nil (dirs : List Str) (base : Str) (k : Nat) :
    substituteDirs dirs base k [] = [] := by
  cases k <;> rfl

theorem substituteDirs_skip (dirs : List Str) (base : Str) :
    ∀ (s : Str) (k : Nat),
      substituteDirs dirs base k s = substituteDirs dirs base 0 (s.drop k) := by
  intro s
  induction s with
  | nil => intro k; simp [substituteDirs_nil]
  | cons c rest ih =>
    intro k
    cases k with
    | zero => simp
    | succ k =>
      rw [substituteDirs, ih]
      simp

theorem substituteDirs_nomatch (dirs : List Str) (base : Str) (c : Char) (s : Str)
    (hno : dirs.find? (fun d => (assetPattern d).isPrefixOf (c :: s)) = none) :
    substituteDirs dirs base 0 (c :: s) = c :: substituteDirs dirs base 0 s := by
  rw [substituteDirs, hno]

theorem substituteDirs_match (dirs : List Str) (base : Str) (s : Str) (d : Str)
    (hd : dirs.find? (fun d => (assetPattern d).isPrefixOf s) = some d) :
    ∃ rest, s = assetPattern d ++ rest
      ∧ substituteDirs dirs base 0 s
          = assetReplacement base d ++ substituteDirs dirs base 0 rest := by
  have hpre : assetPattern d <+: s :=
    List.isPrefixOf_iff_prefix.mp (by simpa using List.find?_some hd)
  obtain ⟨rest, rfl⟩ := hpre
  refine ⟨rest, rfl, ?_⟩
  have hs : assetPattern d ++ rest = '=' :: (dq :: '/' :: d ++ rest) := rfl
  rw [hs] at hd ⊢
  rw [substituteDirs, hd]
  simp only
  rw [substituteDirs_skip]
  have hdrop : List.drop (d.length + 2) (dq :: '/' :: d ++ rest) = rest := by
    have : dq :: '/' :: d ++ rest = (dq :: '/' :: d) ++ rest := rfl
    rw [this]
    exact List.drop_left' (by simp)
  rw [hdrop]

theorem substituteDirs_copy (dirs : List Str) (base : Str) (rest : Str) :
    ∀ w : Str, '=' ∉ w →
      substituteDirs dirs base 0 (w ++ rest) = w ++ substituteDirs dirs base 0 rest := by
  intro w
  induction w with
  | nil => intro _; rfl
  | cons c w ih =>
    intro h
    have hc : c ≠ '=' := fun hc => h (hc ▸ List.mem_cons_self _ _)
    have hw : '=' ∉ w := fun hw => h (List.mem_cons_of_mem _ hw)
    have hno : dirs.find? (fun d => (assetPattern d).isPrefixOf (c :: (w ++ rest))) = none := by
      rw [List.find?_eq_none]
      intro d _
      simp [assetPattern, List.isPrefixOf, Ne.symm hc]
    rw [List.cons_append, substituteDirs_nomatch _ _ _ _ hno, ih hw]
    rfl

theorem prefix_of_substituteDirs (dirs : List Str) (base : Str) :
    ∀ (w s : Str), '=' ∉ w → w <+: substituteDirs dirs base 0 s → w <+: s := by
  intro w
  induction w with
  | nil => intro s _ _; exact List.nil_prefix
  | cons a w ih =>
    intro s h hp
    have ha : a ≠ '=' := fun ha => h (ha ▸ List.mem_cons_self _ _)
    have hw : '=' ∉ w := fun hw => h (List.mem_cons_of_mem _ hw)
    cases s with
    | nil => simp [substituteDirs_nil] at hp
    | cons c s =>
      cases hf : dirs.find? (fun d => (assetPattern d).isPrefixOf (c :: s)) with
      | some d =>
        obtain ⟨rest, _, hsub⟩ := substituteDirs_match dirs base (c :: s) d hf
        rw [hsub] at hp
        obtain ⟨t, ht⟩ := hp
        simp only [assetReplacement, List.cons_append, List.cons.injEq] at ht
        exact absurd ht.1 ha
      | none =>
        rw [substituteDirs_nomatch dirs base c s hf] at hp
        obtain ⟨hac, hws⟩ := List.cons_prefix_cons.mp hp
        rw [hac]
        exact List.cons_prefix_cons.mpr ⟨rfl, ih s hw hws⟩

theorem assetPattern_not_prefix (d : Str) (c c2 : Char) (s : Str)
    (h : c ≠ '=' ∨ c2 ≠ dq) : ¬ assetPattern d <+: c :: c2 :: s := by
  intro hp
  obtain ⟨hc, hp2⟩ := List.cons_prefix_cons.mp hp
  obtain ⟨hc2, _⟩ := List.cons_prefix_cons.mp hp2
  rcases h with h | h
  · exact h hc.symm
  · exact h hc2.symm

theorem rewriteDir_nomatch (base d : Str) (h : '$' ∉ assetReplacement base d) (c : Char)
    (s : Str) (hno : ¬ assetPattern d <+: c :: s) :
    rewriteDir base d (c :: s) = c :: rewriteDir base d s :=
  replaceAll_nomatch _ _ h c s hno

theorem rewriteDir_match (base d : Str) (h : '$' ∉ assetReplacement base d) (rest : Str) :
    rewriteDir base d (assetPattern d ++ rest)
      = assetReplacement base d ++ rewriteDir base d rest :=
  replaceAll_match _ _ h (by simp [assetPattern]) rest

theorem rewriteDir_copy (base d : Str) (h : '$' ∉ assetReplacement base d) (rest : Str) :
    ∀ w : Str, dq ∉ w.tail → w.getLast? ≠ some '=' →
      rewriteDir base d (w ++ rest) = w ++ rewriteDir base d rest := by
  intro w
  induction w with
  | nil => intro _ _; rfl
  | cons c w ih =>
    intro htail hlast
    have hno : ¬ assetPattern d <+: c :: (w ++ rest) := by
      cases w with
      | nil =>
        intro hp
        obtain ⟨hc, _⟩ := List.cons_prefix_cons.mp hp
        exact hlast (by simp [← hc])
      | cons c2 w2 =>
        exact assetPattern_not_prefix d c c2 _
          (Or.inr (fun hc2 => htail (by simp [hc2])))
    have htail2 : dq ∉ w.tail := fun hm => htail (List.mem_of_mem_tail hm)
    have hlast2 : w.getLast? ≠ some '=' := by
      cases w with
      | nil => simp
      | cons c2 w2 => simpa [List.getLast?_cons_cons] using hlast
    rw [List.cons_append, rewriteDir_nomatch base d h c _ hno, ih htail2 hlast2]
    rfl

theorem rewriteDir_piece (base d d2 rest : Str) (h : '$' ∉ assetReplacement base d)
    (hq : dq ∉ base) (hq2 : dq ∉ d2) (he2 : '=' ∉ d2)
    (hno : ¬ ('/' :: d) <+: base ++ '/' :: d2 ++ rest) :
    rewriteDir base d (assetReplacement base d2 ++ rest)
      = assetReplacement base d2 ++ rewriteDir base d rest := by
  have hshape : assetReplacement base d2 ++ rest
      = '=' :: ((dq :: (base ++ '/' :: d2)) ++ rest) := by
    simp [assetReplacement]
  have hhead : ¬ assetPattern d <+: '=' :: ((dq :: (base ++ '/' :: d2)) ++ rest) := by
    intro hp
    obtain ⟨_, hp2⟩ := List.cons_prefix_cons.mp hp
    rw [List.cons_append] at hp2
    obtain ⟨_, hp3⟩ := List.cons_prefix_cons.mp hp2
    exact hno (by simpa using hp3)
  have hdq : dq ≠ '/' := by decide
  have htail : dq ∉ (dq :: (base ++ '/' :: d2)).tail := by
    simp only [List.tail_cons, List.mem_append, List.mem_cons, not_or]
    exact ⟨hq, hdq, hq2⟩
  have hlast : (dq :: (base ++ '/' :: d2)).getLast? ≠ some '=' := by
    intro hl
    have hmem := List.mem_of_getLast?_eq_some hl
    have : (dq :: (base ++ '/' :: d2)).getLast? = ('/' :: d2).getLast? := by
      rw [show dq :: (base ++ '/' :: d2) = (dq :: base) ++ '/' :: d2 from rfl,
        List.getLast?_append_of_ne_nil _ (by simp)]
    rw [this] at hl
    have hin := List.mem_of_getLast?_eq_some hl
    simp only [List.mem_cons] at hin
    rcases hin with hin | hin
    · exact absurd hin (by decide)
    · exact he2 hin
  rw [hshape, rewriteDir_nomatch base d h _ _ hhead, rewriteDir_copy base d h rest _ htail hlast]
  simp [assetReplacement]

theorem substituteDirs_no_dirs (base : Str) :
    ∀ s : Str, substituteDirs [] base 0 s = s := by
  intro s
  induction s with
  | nil => rfl
  | cons c s ih => rw [substituteDirs_nomatch [] base c s rfl, ih]

theorem rewriteDir_substituteDirs (base d : Str) (ds : List Str)
    (h : '$' ∉ assetReplacement base d) (hq : dq ∉ base) (hd : '=' ∉ d)
    (hds : ∀ d2 ∈ ds, dq ∉ d2 ∧ '=' ∉ d2)
    (hno : ∀ d2 ∈ ds, ∀ rest, ¬ ('/' :: d) <+: base ++ '/' :: d2 ++ rest) :
    ∀ (n : Nat) (s : Str), s.length ≤ n →
      rewriteDir base d (substituteDirs ds base 0 s) = substituteDirs (ds ++ [d]) base 0 s := by
  have htailEq : '=' ∉ dq :: '/' :: d := by
    simp only [List.mem_cons, not_or]
    exact ⟨by decide, by decide, hd⟩
  intro n
  induction n with
  | zero =>
    intro s hs
    have : s = [] := List.length_eq_zero.mp (Nat.le_zero.mp hs)
    subst this
    rfl
  | succ n ih =>
    intro s hs
    cases s with
    | nil => rfl
    | cons c s2 =>
      cases hf : ds.find? (fun d => (assetPattern d).isPrefixOf (c :: s2)) with
      | some d2 =>
        have hmem : d2 ∈ ds := List.mem_of_find?_eq_some hf
        have hf2 : (ds ++ [d]).find? (fun d => (assetPattern d).isPrefixOf (c :: s2))
            = some d2 := by
          rw [List.find?_append, hf]
          rfl
        obtain ⟨rest, hs1, hsub1⟩ := substituteDirs_match ds base (c :: s2) d2 hf
        obtain ⟨rest2, hs2, hsub2⟩ := substituteDirs_match (ds ++ [d]) base (c :: s2) d2 hf2
        have hrest : rest2 = rest := List.append_cancel_left (hs2.symm.trans hs1)
        subst hrest
        have hlen : rest2.length ≤ n := by
          have := congrArg List.length hs1
          simp [assetPattern] at this
          simp only [List.length_cons] at hs
          omega
        rw [hsub1, hsub2,
          rewriteDir_piece base d d2 _ h hq (hds d2 hmem).1 (hds d2 hmem).2 (hno d2 hmem _),
          ih rest2 hlen]
      | none =>
        have hlen : s2.length ≤ n := by
          simp only [List.length_cons] at hs
          omega
        rw [substituteDirs_nomatch ds base c s2 hf]
        by_cases hm : assetPattern d <+: c :: s2
        · have hf2 : (ds ++ [d]).find? (fun d => (assetPattern d).isPrefixOf (c :: s2))
              = some d := by
            rw [List.find?_append, hf]
            simp [List.find?, List.isPrefixOf_iff_prefix.mpr hm]
          obtain ⟨rest, hs1, hsub⟩ := substituteDirs_match (ds ++ [d]) base (c :: s2) d hf2
          have hc : c = '=' ∧ s2 = (dq :: '/' :: d) ++ rest := by
            simpa [assetPattern] using hs1
          have hlen2 : rest.length ≤ n := by
            have := congrArg List.length hc.2
            simp at this
            omega
          rw [hsub, hc.2, substituteDirs_copy ds base rest _ htailEq, hc.1]
          have hshape : '=' :: ((dq :: '/' :: d) ++ substituteDirs ds base 0 rest)
              = assetPattern d ++ substituteDirs ds base 0 rest := rfl
          rw [hshape, rewriteDir_match base d h, ih rest hlen2]
        · have hf2 : (ds ++ [d]).find? (fun d => (assetPattern d).isPrefixOf (c :: s2))
              = none := by
            rw [List.find?_append, hf]
            have : (assetPattern d).isPrefixOf (c :: s2) = false := by
              rw [Bool.eq_false_iff]
              exact fun hp => hm (List.isPrefixOf_iff_prefix.mp hp)
            simp [List.find?, this]
          have hno2 : ¬ assetPattern d <+: c :: substituteDirs ds base 0 s2 := by
            intro hp
            obtain ⟨hc, hp2⟩ := List.cons_prefix_cons.mp hp
            have := prefix_of_substituteDirs ds base _ s2 htailEq hp2
            exact hm (List.cons_prefix_cons.mpr ⟨hc, this⟩)
          rw [substituteDirs_nomatch (ds ++ [d]) base c s2 hf2,
            rewriteDir_nomatch base d h c _ hno2, ih s2 hlen]

theorem not_prefix_after_base (base d d2 rest : Str) (hbase : ¬ ('/' :: d) <+: base)
    (hslash : '/' ∉ d) (hdiff : ¬ d <+: d2 ++ rest) :
    ¬ ('/' :: d) <+: base ++ '/' :: d2 ++ rest := by
  intro hp
  have hb : base <+: base ++ '/' :: d2 ++ rest := ⟨'/' :: d2 ++ rest, by simp⟩
  rcases List.prefix_or_prefix_of_prefix hp hb with h1 | h1
  · exact hbase h1
  · obtain ⟨t, ht⟩ := h1
    rw [← ht, List.append_assoc, List.prefix_append_right_inj] at hp
    cases base with
    | nil =>
      simp only [List.nil_append] at ht
      subst ht
      exact hdiff (List.cons_prefix_cons.mp hp).2
    | cons b base2 =>
      simp only [List.cons_append, List.cons.injEq] at ht
      cases t with
      | nil =>
        apply hbase
        rw [← ht.2, ← ht.1]
        simp
      | cons x t2 =>
        have hx : x = '/' := (List.cons_prefix_cons.mp hp).1
        apply hslash
        rw [← ht.2, hx]
        simp

theorem assetReplacement_plain (base d : Str) (hbase : '$' ∉ base) (hd : '$' ∉ d) :
    '$' ∉ assetReplacement base d := by
  simp only [assetReplacement, List.mem_cons, List.mem_append, not_or]
  exact ⟨by decide, by decide, hbase, by decide, hd⟩

/-! ## The claims -/

/-- C1, as stated, fails: with an empty base URL, a request for `/api/nowhere` that every
third-party middleware and every router hands on is answered with status 500, not 404, when
the config helper of lines 74-85 cannot obtain the configuration and calls `next(error)`:
the API catch-all is not an error handler and is passed over. -/
theorem api_request_with_failing_config_helper_gets_500 :
    (plainConfig.baseUrl ++ "/api/".toList <+: apiRequest.path)
    ∧ (∀ (h : Handler) (sc : Nat), brokenDbEnv.library h apiRequest sc = .next sc)
    ∧ ((buildApp plainConfig countingRng none).handle brokenDbEnv apiRequest).map
        (fun r => (r.status, r.servedBy)) = some (500, none)
    ∧ ((buildApp plainConfig countingRng none).handle brokenDbEnv apiRequest).map
        (fun r => r.status) ≠ some 404 :=
  ⟨⟨"nowhere".toList, rfl⟩, fun _ _ => rfl, by decide, by decide⟩

/-- C1, amended: for every configuration whose `baseUrl` is plain text for Express (letters,
digits, slashes, hyphens, underscores), every random source, template and request whose
path lies under `baseUrl + '/api/'`: the API catch-all is registered after the set-up
middleware and every router (the layers of the stack before it are exactly those) and
before the client-side fallback (the layers after it are exactly the fallback, if any); the
response is never sent by the client-side fallback; a router that answers the request,
after the functions registered before it have handed it on, is the one that answers; and
when every function registered before the catch-all that is offered the request hands it on
with `next()`, the response is the 404 of the catch-all, with the text `Not Found` unless
the request is a `HEAD`. -/
theorem api_catch_all_before_client_fallback (cfg : Config) (g : Rng) (template : Option Str)
    (env : Env) (req : Request) (hplain : plainMount cfg.baseUrl = true)
    (hpath : cfg.baseUrl ++ "/api/".toList <+: req.path) :
    ((buildApp cfg g template).stack.takeWhile (fun l => l.handler != Handler.apiCatchAll)
        = setupLayers cfg g ++ routerLayers cfg)
    ∧ ((buildApp cfg g template).stack.dropWhile (fun l => l.handler != Handler.apiCatchAll)
        = apiLayer cfg :: clientLayers cfg template)
    ∧ (∀ body, (buildApp cfg g template).servedBy env req ≠ some (.clientApp body))
    ∧ (∀ (rs1 rs2 : List Router) (r : Router) (st : Nat) (body : Str),
        routers cfg = rs1 ++ r :: rs2 →
        (∀ l ∈ setupLayers cfg g ++ rs1.map (fun x => useAt cfg.baseUrl (.router x)),
          handsOn env req l) →
        (∀ sc, env.library (.router r) req sc = .respond st body) →
        (buildApp cfg g template).handle env req = some ⟨st, body, some (.router r)⟩)
    ∧ ((∀ l ∈ setupLayers cfg g ++ routerLayers cfg, handsOn env req l) →
        (buildApp cfg g template).handle env req
          = some ⟨404, if req.method = "HEAD".toList then [] else "Not Found".toList,
              some .apiCatchAll⟩) := by
  have hm : offered env (apiLayer cfg) req = true := offered_api env cfg req hplain hpath
  have hstack := stack_split cfg g template
  have hapi : ((apiLayer cfg).handler != Handler.apiCatchAll) = false := by
    simp [apiLayer, useAt]
  refine ⟨?_, ?_, ?_, ?_, ?_⟩
  · rw [hstack, List.takeWhile_append_of_pos (before_api cfg g), List.takeWhile_cons, hapi]
    simp
  · rw [hstack, List.dropWhile_append_of_pos (before_api cfg g), List.dropWhile_cons, hapi]
    simp
  · intro body hs
    unfold App.servedBy App.handle at hs
    rw [hstack] at hs
    cases hd : dispatch env req
        ((setupLayers cfg g ++ routerLayers cfg) ++ apiLayer cfg :: clientLayers cfg template)
        none 200 with
    | none => rw [hd] at hs; simp at hs
    | some r =>
      rw [hd] at hs
      simp only [Option.some_bind] at hs
      obtain ⟨l, hl, hlh⟩ := dispatch_stops_at env req (apiLayer cfg)
        (clientLayers cfg template) hm rfl (fun sc => ⟨_, _, rfl⟩)
        (clientLayers_handlers cfg template) _ r hs _ _ _ hd
      simp only [List.mem_append, List.mem_singleton] at hl
      rcases hl with (hl | hl) | hl
      · have := (setupLayers_handlers cfg g l hl).2
        simp [hlh, Handler.isClientApp] at this
      · have := (routerLayers_handlers cfg l hl).2
        simp [hlh, Handler.isClientApp] at this
      · subst hl
        simp [apiLayer, useAt] at hlh
  · intro rs1 rs2 r st body hrs hpass hans
    have hsplit : (buildApp cfg g template).stack
        = (setupLayers cfg g ++ rs1.map (fun x => useAt cfg.baseUrl (.router x)))
          ++ useAt cfg.baseUrl (.router r)
            :: (rs2.map (fun x => useAt cfg.baseUrl (.router x))
                ++ apiLayer cfg :: clientLayers cfg template) := by
      simp [buildApp, routerLayers, hrs]
    unfold App.handle
    rw [hsplit]
    obtain ⟨sc2, h2⟩ := dispatch_pass env req
      (useAt cfg.baseUrl (.router r)
        :: (rs2.map (fun x => useAt cfg.baseUrl (.router x))
            ++ apiLayer cfg :: clientLayers cfg template)) _ hpass 200
    rw [h2, dispatch, offered_base env cfg req _ hplain hpath]
    have hrun : (useAt cfg.baseUrl (Handler.router r)).handler.run env req sc2
        = .respond st body := hans sc2
    rw [hrun]
    rfl
  · intro hpass
    unfold App.handle
    rw [hstack]
    obtain ⟨sc2, h2⟩ := dispatch_pass env req (apiLayer cfg :: clientLayers cfg template)
      _ hpass 200
    rw [h2, dispatch, hm]
    have hrun : (apiLayer cfg).handler.run env req sc2
        = .respond 404 (if req.method = "HEAD".toList then [] else "Not Found".toList) := by
      show Outcome.respond (resSend env req 404 "Not Found".toList).1
        (resSend env req 404 "Not Found".toList).2 = _
      rw [resSend_notFound]
    rw [hrun]
    rfl

/-- C1, amended, at a concrete input: with base URL `/sqlpad`, `debug` on, the oauth router
mounted and a template present, `GET /sqlpad/api/nowhere` is not answered by the fallback;
it gets the 404 of the catch-all when every earlier function hands on, and the answer of the
queries router when that router answers. -/
theorem api_catch_all_before_client_fallback_witness :
    plainMount googleConfig.baseUrl = true
    ∧ (googleConfig.baseUrl ++ "/api/".toList <+: sqlpadApiRequest.path)
    ∧ (∀ body, (buildApp googleConfig countingRng (some imageTemplate)).servedBy quietEnv
          sqlpadApiRequest ≠ some (.clientApp body))
    ∧ (buildApp googleConfig countingRng (some imageTemplate)).handle answeringEnv
          sqlpadApiRequest = some ⟨200, "[]".toList, some (.router .queries)⟩
    ∧ (buildApp googleConfig countingRng (some imageTemplate)).handle quietEnv sqlpadApiRequest
        = some ⟨404, "Not Found".toList, some .apiCatchAll⟩ := by
  have hplain : plainMount googleConfig.baseUrl = true := by decide
  have hp : googleConfig.baseUrl ++ "/api/".toList <+: sqlpadApiRequest.path :=
    ⟨"nowhere".toList, rfl⟩
  have hquiet := api_catch_all_before_client_fallback googleConfig countingRng
    (some imageTemplate) quietEnv sqlpadApiRequest hplain hp
  have hans := api_catch_all_before_client_fallback googleConfig countingRng
    (some imageTemplate) answeringEnv sqlpadApiRequest hplain hp
  refine ⟨hplain, hp, hquiet.2.2.1, ?_, ?_⟩
  · refine hans.2.2.2.1
      [.homepage, .app, .version, .users, .forgotPassword, .passwordReset, .connections]
      [.queryResult, .downloadResults, .schemaInfo, .configValues, .tags,
        .signupSigninSignout, .oauth]
      .queries 200 "[]".toList rfl ?_ (fun _ => rfl)
    intro l hl _ _ sc
    rcases List.mem_append.mp hl with h | h
    · exact ⟨sc, answeringEnv_run _ _ _ (setupLayers_handlers _ _ l h).1
        (setupLayers_handlers _ _ l h).2 (setupLayers_no_router _ _ l h _)⟩
    · obtain ⟨r, hr, rfl⟩ := List.mem_map.mp h
      have hne : r ≠ Router.queries := by
        intro hq
        subst hq
        revert hr
        decide
      exact ⟨sc, answeringEnv_run _ _ _ (by simp [useAt]) rfl (by simpa [useAt] using hne)⟩
  · refine hquiet.2.2.2.2 ?_
    intro l hl _ _ sc
    rcases List.mem_append.mp hl with h | h
    · exact ⟨sc, quietEnv_run _ _ _ (setupLayers_handlers _ _ l h).1
        (setupLayers_handlers _ _ l h).2⟩
    · exact ⟨sc, quietEnv_run _ _ _ (routerLayers_handlers _ l h).1
        (routerLayers_handlers _ l h).2⟩

/-- With a base URL that holds route-pattern characters the mount path of the catch-all is
read by Express as a pattern: `/a(b)/api/` matches paths under `/ab/api`, not the literal
text. In the world where the pattern layers are accordingly not offered
`GET /a(b)/api/x`, the client-side fallback answers it with status 200. -/
theorem api_request_under_pattern_base_gets_fallback :
    plainMount patternConfig.baseUrl = false
    ∧ (patternConfig.baseUrl ++ "/api/".toList <+: patternRequest.path)
    ∧ (buildApp patternConfig countingRng (some imageTemplate)).handle quietEnv patternRequest
        = some ⟨200, baseUrlHtml patternConfig.baseUrl imageTemplate,
            some (.clientApp (baseUrlHtml patternConfig.baseUrl imageTemplate))⟩ :=
  ⟨by decide, ⟨"x".toList, rfl⟩, by decide⟩

/-- C2, as stated, fails: the fallback does not send the body `baseUrlHtml` for every
method. A `HEAD` request that reaches it is answered by `res.send` with status 200 and no
body, although `baseUrlHtml` is not empty. -/
theorem head_request_gets_no_body :
    (buildApp googleConfig countingRng (some imageTemplate)).handle quietEnv headRequest
      = some ⟨200, [], some (.clientApp (baseUrlHtml googleConfig.baseUrl imageTemplate))⟩
    ∧ baseUrlHtml googleConfig.baseUrl imageTemplate ≠ [] :=
  ⟨by decide, by decide⟩

/-- C2, amended: the client-side fallback is in the stack exactly when the template exists;
when it exists the fallback is the last layer and is offered every request; a request that
every earlier function hands on untouched, and that the API catch-all is not offered, is
answered by the fallback through `res.send(baseUrlHtml)`, where `baseUrlHtml` is computed
from the template and `baseUrl` alone: with status 200 and the body `baseUrlHtml` unless
the request is a `HEAD` or a fresh conditional request; and every response the fallback
sends carries either that body or, for a `HEAD` request or a status without content, no
body. -/
theorem client_fallback_last_and_constant (cfg : Config) (g : Rng) (template : Option Str)
    (html : Str) :
    ((buildApp cfg g template).stack.any (fun l => l.handler.isClientApp) = template.isSome)
    ∧ (buildApp cfg g (some html)).stack.getLast?
        = some (use (.clientApp (baseUrlHtml cfg.baseUrl html)))
    ∧ (∀ (env : Env) (req : Request),
        offered env (use (.clientApp (baseUrlHtml cfg.baseUrl html))) req = true)
    ∧ (∀ (env : Env) (req : Request),
        (∀ l ∈ setupLayers cfg g ++ routerLayers cfg, handsOnUntouched env req l) →
        offered env (apiLayer cfg) req = false →
        (buildApp cfg g (some html)).handle env req
          = some ⟨(resSend env req 200 (baseUrlHtml cfg.baseUrl html)).1,
              (resSend env req 200 (baseUrlHtml cfg.baseUrl html)).2,
              some (.clientApp (baseUrlHtml cfg.baseUrl html))⟩)
    ∧ (∀ (env : Env) (req : Request), req.method ≠ "HEAD".toList →
        env.fresh req (baseUrlHtml cfg.baseUrl html) = false →
        resSend env req 200 (baseUrlHtml cfg.baseUrl html)
          = (200, baseUrlHtml cfg.baseUrl html))
    ∧ (∀ (env : Env) (req : Request) (r : Response) (body : Str),
        (buildApp cfg g (some html)).handle env req = some r →
        r.servedBy = some (.clientApp body) →
        body = baseUrlHtml cfg.baseUrl html
        ∧ (r.body = baseUrlHtml cfg.baseUrl html ∨ r.body = [])
        ∧ (req.method = "HEAD".toList → r.body = [])) := by
  refine ⟨?_, ?_, fun env req => ?_, ?_, fun env req hh hf => resSend_plain env req _ hh hf, ?_⟩
  · have h1 : (setupLayers cfg g).any (fun l => l.handler.isClientApp) = false := by
      rw [List.any_eq_false]
      intro l hl
      simp [(setupLayers_handlers cfg g l hl).2]
    have h2 : (routerLayers cfg).any (fun l => l.handler.isClientApp) = false := by
      rw [List.any_eq_false]
      intro l hl
      simp [(routerLayers_handlers cfg l hl).2]
    have h3 : Handler.isClientApp .apiCatchAll = false := rfl
    have h4 : ∀ b, Handler.isClientApp (.clientApp b) = true := fun _ => rfl
    cases template <;>
      simp [buildApp, List.any_append, h1, h2, h3, h4, apiLayer, useAt, use, clientLayers]
  · simp [buildApp, clientLayers]
  · exact offered_use env _ req
  · intro env req hpass hapi
    unfold App.handle
    rw [stack_split, dispatch_pass_untouched env req _ _ hpass 200, dispatch, hapi]
    simp only [Bool.false_and, Bool.false_eq_true, if_false, clientLayers]
    rw [dispatch]
    rw [offered_use]
    rfl
  · intro env req r body hd hs
    unfold App.handle at hd
    obtain ⟨sc2, hrun⟩ := dispatch_servedBy_run env req (.clientApp body) r hs rfl _ _ _ hd
    obtain ⟨l, hl, hlh⟩ := dispatch_servedBy_mem env req (.clientApp body) r hs _ _ _ hd
    have hb : body = baseUrlHtml cfg.baseUrl html := by
      simp only [buildApp, List.mem_append, List.mem_singleton] at hl
      rcases hl with ((hl | hl) | hl) | hl
      · have := (setupLayers_handlers cfg g l hl).2
        simp [hlh, Handler.isClientApp] at this
      · have := (routerLayers_handlers cfg l hl).2
        simp [hlh, Handler.isClientApp] at this
      · subst hl
        simp [apiLayer, useAt] at hlh
      · simp only [clientLayers, List.mem_singleton] at hl
        subst hl
        simp only [use, Handler.clientApp.injEq] at hlh
        exact hlh.symm
    simp only [Handler.run, Outcome.respond.injEq] at hrun
    subst hb
    refine ⟨rfl, ?_, ?_⟩
    · rw [← hrun.2]
      exact resSend_body env req sc2 _
    · intro hh
      rw [← hrun.2]
      exact resSend_head env req sc2 _ hh

/-- C2, amended, at a concrete input: with base URL `/sqlpad` and the image template,
`GET /sqlpad/queries/5` is answered by the fallback with status 200 and the rewritten
template, when every earlier function hands on. -/
theorem client_fallback_last_and_constant_witness :
    (buildApp googleConfig countingRng (some imageTemplate)).handle quietEnv pageRequest
      = some ⟨200, "<img src=".toList ++ dq :: "/sqlpad/images/logo.png".toList ++ [dq, '>'],
          some (.clientApp (baseUrlHtml googleConfig.baseUrl imageTemplate))⟩ := by
  have hall := client_fallback_last_and_constant googleConfig countingRng
    (some imageTemplate) imageTemplate
  have hpass : ∀ l ∈ setupLayers googleConfig countingRng ++ routerLayers googleConfig,
      handsOnUntouched quietEnv pageRequest l := by
    intro l hl _ _ sc
    rcases List.mem_append.mp hl with h | h
    · exact quietEnv_run _ _ _ (setupLayers_handlers _ _ l h).1
        (setupLayers_handlers _ _ l h).2
    · exact quietEnv_run _ _ _ (routerLayers_handlers _ l h).1
        (routerLayers_handlers _ l h).2
  have h := hall.2.2.2.1 quietEnv pageRequest hpass (by decide)
  rw [hall.2.2.2.2.1 quietEnv pageRequest (by decide) rfl] at h
  rw [h]
  decide

/-- C3, evaluated: with `baseUrl` `/static` the chain of five replaces prefixes an image
reference twice. The third replace turns `="/images/logo.png` into
`="/static/images/logo.png`, and the fifth replace, for `="/static`, matches that output and
prefixes it again; the single simultaneous substitution prefixes it once. -/
theorem template_rewrite_prefixes_twice :
    baseUrlHtml "/static".toList imageTemplate
      = "<img src=".toList ++ dq :: "/static/static/images/logo.png".toList ++ [dq, '>']
    ∧ substituteOnce "/static".toList imageTemplate
      = "<img src=".toList ++ dq :: "/static/images/logo.png".toList ++ [dq, '>']
    ∧ baseUrlHtml "/static".toList imageTemplate
      ≠ substituteOnce "/static".toList imageTemplate := by
  refine ⟨by decide, by decide, by decide⟩

/-- A dollar sequence in `baseUrl` is expanded by `replace`: with `baseUrl` `$&` the text
inserted after `="` is the matched text `="/images`, not `baseUrl`. -/
theorem template_rewrite_expands_dollar :
    baseUrlHtml "$&".toList imageTemplate
      = "<img src=".toList ++ dq :: '=' :: dq :: "/images/images/logo.png".toList ++ [dq, '>']
    ∧ substituteOnce "$&".toList imageTemplate
      = "<img src=".toList ++ dq :: "$&/images/logo.png".toList ++ [dq, '>'] := by
  refine ⟨by decide, by decide⟩

/-- The extent of the double prefix: when `baseUrl` contains neither a dollar sign nor a
double quote and does not begin with `/javascripts`, `/images`, `/fonts` or `/static`, the
chain of five replaces is the single simultaneous substitution, for every template. -/
theorem baseUrlHtml_eq_substituteOnce (base html : Str) (hdollar : '$' ∉ base)
    (hquote : dq ∉ base)
    (hstart : ∀ d ∈ ["javascripts".toList, "images".toList, "fonts".toList, "static".toList],
      ¬ ('/' :: d) <+: base) :
    baseUrlHtml base html = substituteOnce base html := by
  have h1 := rewriteDir_substituteDirs base "stylesheets".toList []
    (assetReplacement_plain _ _ hdollar (by decide)) hquote (by decide)
    (by simp) (by simp) html.length html (Nat.le_refl _)
  have h2 := rewriteDir_substituteDirs base "javascripts".toList ["stylesheets".toList]
    (assetReplacement_plain _ _ hdollar (by decide)) hquote (by decide) (by decide)
    (by
      intro d2 hd2 rest
      refine not_prefix_after_base base _ d2 rest (hstart _ (by simp)) (by decide) ?_
      simp only [List.mem_singleton] at hd2
      subst hd2
      rintro ⟨t, ht⟩
      simp at ht)
    html.length html (Nat.le_refl _)
  have h3 := rewriteDir_substituteDirs base "images".toList
    ["stylesheets".toList, "javascripts".toList]
    (assetReplacement_plain _ _ hdollar (by decide)) hquote (by decide) (by decide)
    (by
      intro d2 hd2 rest
      refine not_prefix_after_base base _ d2 rest (hstart _ (by simp)) (by decide) ?_
      simp only [List.mem_cons, List.mem_singleton, List.not_mem_nil, or_false] at hd2
      rcases hd2 with rfl | rfl <;>
        (rintro ⟨t, ht⟩; simp at ht))
    html.length html (Nat.le_refl _)
  have h4 := rewriteDir_substituteDirs base "fonts".toList
    ["stylesheets".toList, "javascripts".toList, "images".toList]
    (assetReplacement_plain _ _ hdollar (by decide)) hquote (by decide) (by decide)
    (by
      intro d2 hd2 rest
      refine not_prefix_after_base base _ d2 rest (hstart _ (by simp)) (by decide) ?_
      simp only [List.mem_cons, List.mem_singleton, List.not_mem_nil, or_false] at hd2
      rcases hd2 with rfl | rfl | rfl <;>
        (rintro ⟨t, ht⟩; simp at ht))
    html.length html (Nat.le_refl _)
  have h5 := rewriteDir_substituteDirs base "static".toList
    ["stylesheets".toList, "javascripts".toList, "images".toList, "fonts".toList]
    (assetReplacement_plain _ _ hdollar (by decide)) hquote (by decide) (by decide)
    (by
      intro d2 hd2 rest
      refine not_prefix_after_base base _ d2 rest (hstart _ (by simp)) (by decide) ?_
      simp only [List.mem_cons, List.mem_singleton, List.not_mem_nil, or_false] at hd2
      rcases hd2 with rfl | rfl | rfl | rfl <;>
        (rintro ⟨t, ht⟩; simp at ht))
    html.length html (Nat.le_refl _)
  rw [substituteDirs_no_dirs] at h1
  simp only [List.nil_append, List.cons_append] at h1 h2 h3 h4 h5
  unfold baseUrlHtml substituteOnce assetDirs
  rw [h1, h2, h3, h4, h5]

/-- The chain and the single substitution agree for the base URL `/sqlpad` on the image
template. -/
theorem baseUrlHtml_eq_substituteOnce_witness :
    baseUrlHtml "/sqlpad".toList imageTemplate = substituteOnce "/sqlpad".toList imageTemplate
    ∧ baseUrlHtml "/sqlpad".toList imageTemplate
      = "<img src=".toList ++ dq :: "/sqlpad/images/logo.png".toList ++ [dq, '>'] :=
  ⟨baseUrlHtml_eq_substituteOnce "/sqlpad".toList imageTemplate (by decide) (by decide)
    (by decide), by decide⟩

/-- C4: for every random byte source, `cookieSecrets` is the list of the hexadecimal
encodings of four consecutive, disjoint draws of 64 bytes; it has four entries, each of 128
characters taken from `0-9a-f`; the values being mapped over play no part; and for every
configuration and template this list is the `secret` of the one session middleware of the
stack. -/
theorem cookie_secrets_four_hex_draws (g : Rng) :
    (cookieSecrets g).1
      = (List.range 4).map (fun k =>
          toHex ((List.range 64).map (fun i => g.stream (g.pos + 64 * k + i))))
    ∧ (cookieSecrets g).1.length = 4
    ∧ (∀ s ∈ (cookieSecrets g).1, s.length = 128 ∧ ∀ c ∈ s, c ∈ hexDigits)
    ∧ (∀ a b c d : Nat, (mapRng secretCallback [a, b, c, d] g).1 = (cookieSecrets g).1)
    ∧ (∀ (cfg : Config) (template : Option Str),
        sessionOptions (buildApp cfg g template).stack
          = [{ storeCheckPeriod := ONE_HOUR, saveUninitialized := false, resave := false,
               rolling := true, cookieMaxAge := ONE_HOUR, secret := (cookieSecrets g).1 }]) := by
  refine ⟨cookieSecrets_eq g, ?_, ?_, fun _ _ _ _ => rfl, fun cfg template =>
    sessionOptions_stack cfg g template⟩
  · rw [cookieSecrets_eq]
    simp
  · intro s hs
    rw [cookieSecrets_eq] at hs
    simp only [List.mem_map] at hs
    obtain ⟨k, _, rfl⟩ := hs
    exact ⟨by rw [toHex_length]; simp, toHex_chars _⟩

/-- C4 at a concrete source: the bytes 0, 1, 2, ... give four secrets of 128 hexadecimal
digits, the first of which begins `0001`. -/
theorem cookie_secrets_four_hex_draws_witness :
    (cookieSecrets countingRng).1.length = 4
    ∧ (∀ s ∈ (cookieSecrets countingRng).1, s.length = 128 ∧ ∀ c ∈ s, c ∈ hexDigits)
    ∧ ((cookieSecrets countingRng).1.map (fun s => s.take 4))
        = ["0001".toList, "4041".toList, "8081".toList, "c0c1".toList] :=
  ⟨(cookie_secrets_four_hex_draws countingRng).2.1,
    (cookie_secrets_four_hex_draws countingRng).2.2.1, by decide⟩

/-- C5: in every configuration, random source and template the routers of the stack are
the fourteen baseline routers in the listed order, followed by the oauth router exactly when
`googleClientId`, `googleClientSecret` and `publicUrl` are all set and non-empty, every one
of them mounted at `baseUrl`; the `debug` flag plays no part; the baseline list has fourteen
entries, homepage first and signup-signin-signout last, and with the oauth router the list
has fifteen entries, the oauth router last. -/
theorem routers_mounted_in_order (cfg : Config) (g : Rng) (template : Option Str) :
    mountedRouters (buildApp cfg g template).stack
      = (baseRouters ++
          (if truthy cfg.googleClientId && truthy cfg.googleClientSecret
              && truthy cfg.publicUrl then [Router.oauth] else [])).map
          (fun r => (cfg.baseUrl, r))
    ∧ ((truthy cfg.googleClientId && truthy cfg.googleClientSecret
          && truthy cfg.publicUrl) = true
        ↔ (∃ id, cfg.googleClientId = some id ∧ id ≠ [])
          ∧ (∃ sec, cfg.googleClientSecret = some sec ∧ sec ≠ [])
          ∧ (∃ url, cfg.publicUrl = some url ∧ url ≠ []))
    ∧ (∀ d : Bool, mountedRouters (buildApp { cfg with debug := d } g template).stack
        = mountedRouters (buildApp cfg g template).stack)
    ∧ baseRouters.length = 14
    ∧ baseRouters.head? = some Router.homepage
    ∧ baseRouters.getLast? = some Router.signupSigninSignout
    ∧ Router.oauth ∉ baseRouters
    ∧ (baseRouters ++ [Router.oauth]).length = 15
    ∧ (baseRouters ++ [Router.oauth]).getLast? = some Router.oauth := by
  have htruthy : ∀ o : Option Str, truthy o = true ↔ ∃ v, o = some v ∧ v ≠ [] := by
    intro o
    cases o with
    | none => simp [truthy]
    | some v => cases v <;> simp [truthy]
  refine ⟨?_, ?_, ?_, rfl, rfl, rfl, by decide, rfl, rfl⟩
  · rw [mountedRouters_stack]
    unfold routers
    split <;> simp
  · simp only [Bool.and_eq_true, htruthy, and_assoc]
  · intro d
    rw [mountedRouters_stack, mountedRouters_stack]
    rfl

/-- C5 at two concrete configurations: with all three Google settings (and `debug` on) the
stack has fifteen routers, the oauth router last; with none it has the fourteen baseline
routers. -/
theorem routers_mounted_in_order_witness :
    (mountedRouters (buildApp googleConfig countingRng none).stack).length = 15
    ∧ (mountedRouters (buildApp googleConfig countingRng none).stack).getLast?
        = some ("/sqlpad".toList, Router.oauth)
    ∧ mountedRouters (buildApp plainConfig countingRng none).stack
        = baseRouters.map (fun r => ([], r)) := by
  have h1 := (routers_mounted_in_order googleConfig countingRng none).1
  have h2 := (routers_mounted_in_order plainConfig countingRng none).1
  refine ⟨?_, ?_, ?_⟩
  · rw [h1]; rfl
  · rw [h1]; rfl
  · rw [h2]; rfl

/-- C6: a preview of a query that yields rows never fails and never returns more than
`limit` rows: it returns the first `limit` rows, and the result is marked truncated exactly
when the query yielded more than `limit` rows, that is, exactly when rows were cut off; a
query that fails raises the error text of the driver. -/
theorem preview_capped_and_marked (yielded : List Row) (limit : Nat) (msg : Str) :
    (∃ r, executePreview (.ok yielded) limit = .ok r
        ∧ r.rows.length ≤ limit
        ∧ r.rows = yielded.take limit
        ∧ (r.truncated = true ↔ limit < yielded.length)
        ∧ (r.truncated = true ↔ r.rows ≠ yielded))
    ∧ executePreview (.error msg) limit = .error msg := by
  refine ⟨⟨_, rfl, ?_, rfl, ?_, ?_⟩, rfl⟩
  · simp only [List.length_take]
    omega
  · simp
  · simp only [decide_eq_true_eq, ne_eq, List.take_eq_self_iff]
    omega

/-- C6 at the example of the specification and at a capped query: `SELECT 1` with limit 10
gives one row, not truncated; three rows with limit 2 give two rows, truncated. -/
theorem preview_capped_and_marked_witness :
    executePreview (.ok [["1".toList]]) 10 = .ok ⟨[["1".toList]], false⟩
    ∧ executePreview (.ok [["a".toList], ["b".toList], ["c".toList]]) 2
        = .ok ⟨[["a".toList], ["b".toList]], true⟩
    ∧ (∃ r, executePreview (.ok [["a".toList], ["b".toList], ["c".toList]]) 2 = .ok r
        ∧ r.rows.length ≤ 2) := by
  obtain ⟨r, hr, hlen, _⟩ :=
    (preview_capped_and_marked [["a".toList], ["b".toList], ["c".toList]] 2 []).1
  exact ⟨rfl, rfl, r, hr, hlen⟩

end SqlPad
